import Mathlib

set_option maxHeartbeats 1000000
set_option maxRecDepth 100000
set_option exponentiation.threshold 1100

namespace StorageEditor

/-!
Shallow embedding of the storage editor in
src/modules/webExtensionStorageEditor/webExtensionStorageEditor.mjs.

Strings are modelled as Lean strings; JS numbers are modelled exactly as
rationals together with NaN and the two infinities (double-precision rounding
never affects the finiteness checks or the concrete displayed values the
claims evaluate, except overflow to infinity, which is modelled exactly).
The DOM table body is modelled as the ordered list of row records. The
querySelector lookup by the data-row-id attribute is modelled as exact
attribute-value comparison for selector-safe identities; the checked variant
of the pass (selectorSafe, loadEntriesChecked below) additionally models the
SyntaxError the real unescaped selector raises on identities that break the
CSS string.
-/

/-- Helper for hasSub: the second list is a leading segment of the first. -/
def leadsWith : List Char → List Char → Bool
  | _, [] => true
  | [], _ :: _ => false
  | a :: xs, b :: ys => a = b && leadsWith xs ys

/-- Substring containment on char lists (the semantics of the JS includes call). -/
def hasSub : List Char → List Char → Bool
  | [], nee => nee.isEmpty
  | hay@(_ :: t), nee => leadsWith hay nee || hasSub t nee

/-- JS String.prototype.includes: case-sensitive substring containment. -/
def jsIncludes (s pat : String) : Bool := hasSub s.data pat.data

/-- A JS number: NaN, an infinity (neg = sign), or a finite value.
The finite payload is the exact rational value of the source literal;
rounding to the nearest double is not modelled (it cannot change finiteness,
which is all the code inspects, except for overflow handled separately). -/
inductive JsNum where
  | nan : JsNum
  | inf (neg : Bool) : JsNum
  | finite (q : ℚ) : JsNum
deriving DecidableEq

/-- Smallest magnitude that rounds to infinity in IEEE double precision. -/
def jsMaxNat : ℕ := 2 ^ 1024 - 2 ^ 970

/-- Convert an exact rational to a JS number, overflowing to an infinity
exactly when IEEE round-to-nearest-even would. -/
def applyOverflow (q : ℚ) : JsNum :=
  if Nat.ble (jsMaxNat * q.den) q.num.natAbs then
    (if q.num < 0 then JsNum.inf true else JsNum.inf false)
  else JsNum.finite q

def isFiniteNum : JsNum → Bool
  | JsNum.finite _ => true
  | _ => false

/-- The whitespace characters trimmed by JS ToNumber (ASCII whitespace,
no-break space and BOM; the rarer Unicode space separators are omitted,
no claim involves them). -/
def jsWhite (c : Char) : Bool :=
  c = ' ' || c = '\t' || c = '\n' || c = '\r' || c = '\x0b' || c = '\x0c' ||
  c = '\u00A0' || c = '\uFEFF'

def trimWhite (cs : List Char) : List Char :=
  ((cs.dropWhile jsWhite).reverse.dropWhile jsWhite).reverse

def isDig (c : Char) : Bool := '0' ≤ c && c ≤ '9'

def digVal (c : Char) : ℕ := c.toNat - '0'.toNat

def digitsToNat (ds : List Char) : ℕ := ds.foldl (fun a c => a * 10 + digVal c) 0

def isHexDig (c : Char) : Bool :=
  isDig c || ('a' ≤ c && c ≤ 'f') || ('A' ≤ c && c ≤ 'F')

def hexVal (c : Char) : ℕ :=
  if isDig c then digVal c
  else if 'a' ≤ c && c ≤ 'f' then c.toNat - 'a'.toNat + 10
  else c.toNat - 'A'.toNat + 10

def hexToNat (ds : List Char) : ℕ := ds.foldl (fun a c => a * 16 + hexVal c) 0

def isOctDig (c : Char) : Bool := '0' ≤ c && c ≤ '7'

def octToNat (ds : List Char) : ℕ := ds.foldl (fun a c => a * 8 + digVal c) 0

def isBinDig (c : Char) : Bool := c = '0' || c = '1'

def binToNat (ds : List Char) : ℕ := ds.foldl (fun a c => a * 2 + digVal c) 0

/-- Exponent part of a decimal literal; the whole rest of the string must be
consumed: an empty rest yields exponent 0, anything malformed yields none. -/
def parseExpPart : List Char → Option ℤ
  | [] => some 0
  | e :: rest =>
    if e = 'e' || e = 'E' then
      match rest with
      | '+' :: ds => if ds ≠ [] && ds.all isDig then some (digitsToNat ds : ℤ) else none
      | '-' :: ds => if ds ≠ [] && ds.all isDig then some (-(digitsToNat ds : ℤ)) else none
      | ds => if ds ≠ [] && ds.all isDig then some (digitsToNat ds : ℤ) else none
    else none

/-- The exact rational value of the decimal literal with integer digits ip,
fraction digits fp and exponent e. Built with mkRat and machine-level
arithmetic only, so that it evaluates by kernel reduction. -/
def decValue (ip fp : List Char) (e : ℤ) : ℚ :=
  let m : ℤ := (digitsToNat (ip ++ fp) : ℤ)
  let sh : ℤ := e - fp.length
  if 0 ≤ sh then mkRat (m * ((10 ^ sh.toNat : ℕ) : ℤ)) 1
  else mkRat m (10 ^ (-sh).toNat)

/-- StrUnsignedDecimalLiteral: digits with optional fraction and exponent, or
a fraction-only literal; the whole list must be consumed. -/
def parseUnsignedDec (cs : List Char) : Option ℚ :=
  let (ip, r1) := cs.span isDig
  match r1 with
  | '.' :: r2 =>
    let (fp, r3) := r2.span isDig
    if ip = [] && fp = [] then none
    else
      match parseExpPart r3 with
      | none => none
      | some e => some (decValue ip fp e)
  | _ =>
    if ip = [] then none
    else
      match parseExpPart r1 with
      | none => none
      | some e => some (decValue ip [] e)

/-- Signed decimal part of ToNumber (sign, Infinity, or a decimal literal). -/
def parseSignedDec (cs : List Char) : JsNum :=
  let core : List Char → Bool → JsNum := fun body neg =>
    if body = "Infinity".data then JsNum.inf neg
    else
      match parseUnsignedDec body with
      | none => JsNum.nan
      | some q => applyOverflow (if neg then -q else q)
  match cs with
  | '+' :: rest => core rest false
  | '-' :: rest => core rest true
  | _ => core cs false

/-- JS Number(string) conversion (the ToNumber string grammar): trims
whitespace, empty means 0, hex/octal/binary prefixes, otherwise a signed
decimal literal or Infinity; anything else is NaN. -/
def jsToNumber (s : String) : JsNum :=
  let cs := trimWhite s.data
  if cs = [] then JsNum.finite 0
  else
    match cs with
    | '0' :: x :: rest =>
      if x = 'x' || x = 'X' then
        (if rest ≠ [] && rest.all isHexDig then applyOverflow (mkRat (hexToNat rest : ℤ) 1) else JsNum.nan)
      else if x = 'o' || x = 'O' then
        (if rest ≠ [] && rest.all isOctDig then applyOverflow (mkRat (octToNat rest : ℤ) 1) else JsNum.nan)
      else if x = 'b' || x = 'B' then
        (if rest ≠ [] && rest.all isBinDig then applyOverflow (mkRat (binToNat rest : ℤ) 1) else JsNum.nan)
      else parseSignedDec cs
    | _ => parseSignedDec cs

/-!
JS values stored in the storage area. Mutual inductives are used instead of a
nested List so that all recursions stay structural (and kernel-reducible).
JsArr is an array, JsProps the ordered property list of a plain object.
-/

mutual
inductive JsVal where
  | null : JsVal
  | bool (b : Bool) : JsVal
  | num (n : JsNum) : JsVal
  | str (s : String) : JsVal
  | arr (elems : JsArr) : JsVal
  | obj (props : JsProps) : JsVal

inductive JsArr where
  | nil : JsArr
  | cons (hd : JsVal) (tl : JsArr) : JsArr

inductive JsProps where
  | nil : JsProps
  | cons (k : String) (v : JsVal) (tl : JsProps) : JsProps
end

deriving instance DecidableEq for JsVal, JsArr, JsProps

deriving instance DecidableEq for Except

/-- getType from the source: a non-null object (or array) is "object",
true/false is "boolean", a number (NaN included) is "number", everything
else (null included, since null fails the first test) falls to "string". -/
def getType : JsVal → String
  | JsVal.arr _ => "object"
  | JsVal.obj _ => "object"
  | JsVal.bool _ => "boolean"
  | JsVal.num _ => "number"
  | _ => "string"

/-- Decimal representation of a nonnegative integer. -/
def natDec (n : ℕ) : String := String.mk (Nat.toDigits 10 n)

/-- Decimal representation of an integer (as both String() and JSON render
integral JS numbers of ordinary size). -/
def intDec (i : ℤ) : String :=
  if i < 0 then "-" ++ natDec i.natAbs else natDec i.natAbs

/-- Display form of a finite JS number. Exact for integral values of ordinary
magnitude and for fractions whose denominator divides a power of ten; the
shortest-round-trip formatting JS applies to other doubles (and the switch to
exponential notation for very large or very small magnitudes) is outside the
modelled fragment and is mapped to an opaque token no theorem inspects. -/
def finiteNumStr (q : ℚ) : String :=
  if q.den = 1 then
    (if q.num.natAbs < 10 ^ 21 then intDec q.num else "numberFormatOutsideModel")
  else
    match (List.range 31).find? (fun k => 10 ^ k % q.den = 0) with
    | some k =>
      if q.num.natAbs < 10 ^ 21 * q.den && q.den < 10 ^ 6 * q.num.natAbs then
        let scaled : ℕ := q.num.natAbs * (10 ^ k / q.den)
        (if q.num < 0 then "-" else "") ++
          natDec (scaled / 10 ^ k) ++ "." ++
          (String.mk (List.replicate (k - (Nat.toDigits 10 (scaled % 10 ^ k)).length) '0') ++
            natDec (scaled % 10 ^ k))
      else "numberFormatOutsideModel"
    | none => "numberFormatOutsideModel"

/-- JS String(n) for a number. -/
def jsNumToString : JsNum → String
  | JsNum.nan => "NaN"
  | JsNum.inf true => "-Infinity"
  | JsNum.inf false => "Infinity"
  | JsNum.finite q => finiteNumStr q

/-- JSON.stringify rendering of a number (non-finite numbers become null). -/
def jsonNumStr : JsNum → String
  | JsNum.finite q => finiteNumStr q
  | _ => "null"

def hexDigChar (n : ℕ) : Char :=
  if n < 10 then Char.ofNat ('0'.toNat + n) else Char.ofNat ('a'.toNat + n - 10)

/-- JSON string escaping as JSON.stringify performs it. -/
def qEsc (c : Char) : List Char :=
  if c = '"' then ['\\', '"']
  else if c = '\\' then ['\\', '\\']
  else if c = '\x08' then ['\\', 'b']
  else if c = '\t' then ['\\', 't']
  else if c = '\n' then ['\\', 'n']
  else if c = '\x0c' then ['\\', 'f']
  else if c = '\r' then ['\\', 'r']
  else if c.toNat < 0x20 then
    ['\\', 'u', '0', '0', hexDigChar (c.toNat / 16), hexDigChar (c.toNat % 16)]
  else [c]

def mapConcat (f : Char → List Char) : List Char → List Char
  | [] => []
  | c :: t => f c ++ mapConcat f t

def quoteJson (s : String) : String :=
  "\"" ++ String.mk (mapConcat qEsc s.data) ++ "\""

/- Compact JSON.stringify (no indentation), as used for displayText. -/
mutual
def jsonStringify : JsVal → String
  | JsVal.null => "null"
  | JsVal.bool b => if b then "true" else "false"
  | JsVal.num n => jsonNumStr n
  | JsVal.str s => quoteJson s
  | JsVal.arr a => "[" ++ strArr a ++ "]"
  | JsVal.obj p => "\x7b" ++ strProps p ++ "\x7d"

def strArr : JsArr → String
  | JsArr.nil => ""
  | JsArr.cons v JsArr.nil => jsonStringify v
  | JsArr.cons v tl => jsonStringify v ++ "," ++ strArr tl

def strProps : JsProps → String
  | JsProps.nil => ""
  | JsProps.cons k v JsProps.nil => quoteJson k ++ ":" ++ jsonStringify v
  | JsProps.cons k v tl => quoteJson k ++ ":" ++ jsonStringify v ++ "," ++ strProps tl
end

def indentStr (d : ℕ) : String := String.mk (List.replicate (2 * d) ' ')

/- JSON.stringify with indent 2 (the editor buffer form for objects). -/
mutual
def jsonPretty (d : ℕ) : JsVal → String
  | JsVal.arr JsArr.nil => "[]"
  | JsVal.obj JsProps.nil => "\x7b\x7d"
  | JsVal.arr a => "[\n" ++ prettyArr (d + 1) a ++ "\n" ++ indentStr d ++ "]"
  | JsVal.obj p => "\x7b\n" ++ prettyProps (d + 1) p ++ "\n" ++ indentStr d ++ "\x7d"
  | v => jsonStringify v

def prettyArr (d : ℕ) : JsArr → String
  | JsArr.nil => ""
  | JsArr.cons v JsArr.nil => indentStr d ++ jsonPretty d v
  | JsArr.cons v tl => indentStr d ++ jsonPretty d v ++ ",\n" ++ prettyArr d tl

def prettyProps (d : ℕ) : JsProps → String
  | JsProps.nil => ""
  | JsProps.cons k v JsProps.nil => indentStr d ++ quoteJson k ++ ": " ++ jsonPretty d v
  | JsProps.cons k v tl =>
    indentStr d ++ quoteJson k ++ ": " ++ jsonPretty d v ++ ",\n" ++ prettyProps d tl
end

/- JS String(v) conversion: arrays join their elements with commas
(null elements become empty), plain objects print the generic object tag. -/
mutual
def jsToString : JsVal → String
  | JsVal.null => "null"
  | JsVal.bool b => if b then "true" else "false"
  | JsVal.num n => jsNumToString n
  | JsVal.str s => s
  | JsVal.arr a => arrJoin a
  | JsVal.obj _ => "[object Object]"

def arrJoin : JsArr → String
  | JsArr.nil => ""
  | JsArr.cons JsVal.null JsArr.nil => ""
  | JsArr.cons v JsArr.nil => jsToString v
  | JsArr.cons JsVal.null tl => "," ++ arrJoin tl
  | JsArr.cons v tl => jsToString v ++ "," ++ arrJoin tl
end

/-- formatDisplayValue from the source. -/
def formatDisplayValue (v : JsVal) : String :=
  if getType v = "object" then jsonStringify v else jsToString v

/-- formatEditorValue from the source. -/
def formatEditorValue (v : JsVal) : String :=
  if getType v = "object" then jsonPretty 0 v else jsToString v

/-- getRowId from the source. -/
def getRowId (key : String) (v : JsVal) : String := key ++ "." ++ getType v

/-!
JSON.parse. JSON whitespace is only space, tab, line feed and carriage
return. The parser is written with an explicit fuel argument so that every
recursion is structural; the initial fuel (twice the input length plus four)
exceeds the maximal possible recursion depth, so the fuel never runs out.
-/

def jsonWs (c : Char) : Bool := c = ' ' || c = '\t' || c = '\n' || c = '\r'

def skipWs (cs : List Char) : List Char := cs.dropWhile jsonWs

/-- Insert a property as JS object literal evaluation does: a duplicate key
overwrites the earlier value in place, a new key is appended. -/
def objInsert : JsProps → String → JsVal → JsProps
  | JsProps.nil, k, v => JsProps.cons k v JsProps.nil
  | JsProps.cons k0 v0 tl, k, v =>
    if k0 = k then JsProps.cons k0 v tl
    else JsProps.cons k0 v0 (objInsert tl k v)

def isHighSurrogate (n : ℕ) : Bool := 0xD800 ≤ n && n ≤ 0xDBFF

def isLowSurrogate (n : ℕ) : Bool := 0xDC00 ≤ n && n ≤ 0xDFFF

def parseHex4 : List Char → Option (ℕ × List Char)
  | a :: b :: c :: d :: rest =>
    if isHexDig a && isHexDig b && isHexDig c && isHexDig d then
      some (((hexVal a * 16 + hexVal b) * 16 + hexVal c) * 16 + hexVal d, rest)
    else none
  | _ => none

/-- JSON string body parser (after the opening quote): handles the escape
sequences and rejects raw control characters, as JSON.parse does. Surrogate
pairs are combined into the astral character; a lone surrogate, which JS
would keep as an unpaired UTF-16 code unit, is not representable as a Lean
Char and is reported as an error (a documented model limit no claim hits). -/
def pStr (fuel : ℕ) (cs : List Char) : Except String (List Char × List Char) :=
  match fuel with
  | 0 => Except.error "out of fuel"
  | fuel + 1 =>
    match cs with
    | [] => Except.error "unterminated string"
    | c :: t =>
      if c = '"' then Except.ok ([], t)
      else if c = '\\' then
        match t with
        | [] => Except.error "bad escape"
        | e :: t2 =>
          if e = '"' || e = '\\' || e = '/' then
            (pStr fuel t2).map (fun r => (e :: r.1, r.2))
          else if e = 'b' then (pStr fuel t2).map (fun r => ('\x08' :: r.1, r.2))
          else if e = 'f' then (pStr fuel t2).map (fun r => ('\x0c' :: r.1, r.2))
          else if e = 'n' then (pStr fuel t2).map (fun r => ('\n' :: r.1, r.2))
          else if e = 'r' then (pStr fuel t2).map (fun r => ('\r' :: r.1, r.2))
          else if e = 't' then (pStr fuel t2).map (fun r => ('\t' :: r.1, r.2))
          else if e = 'u' then
            match parseHex4 t2 with
            | none => Except.error "bad unicode escape"
            | some (n, t3) =>
              if isHighSurrogate n then
                match t3 with
                | '\\' :: 'u' :: t4 =>
                  match parseHex4 t4 with
                  | some (m, t5) =>
                    if isLowSurrogate m then
                      (pStr fuel t5).map
                        (fun r =>
                          (Char.ofNat (0x10000 + (n - 0xD800) * 0x400 + (m - 0xDC00)) :: r.1,
                            r.2))
                    else Except.error "lone surrogate outside model"
                  | none => Except.error "bad unicode escape"
                | _ => Except.error "lone surrogate outside model"
              else if isLowSurrogate n then Except.error "lone surrogate outside model"
              else (pStr fuel t3).map (fun r => (Char.ofNat n :: r.1, r.2))
          else Except.error "bad escape"
      else if c.toNat < 0x20 then Except.error "control character in string"
      else (pStr fuel t).map (fun r => (c :: r.1, r.2))

/-- JSON number grammar: -? (0 | [1-9][0-9]*) frac? exp?. Unlike ToNumber it
is maximal-munch with no signs on the integer part other than minus, no hex
and no Infinity; overflow to an infinity is applied as JS does. -/
def pNum (cs : List Char) : Except String (JsNum × List Char) :=
  let neg := cs.head? = some '-'
  let cs1 := if neg then cs.tail else cs
  let intPart : Option (List Char × List Char) :=
    match cs1 with
    | '0' :: r => some (['0'], r)
    | c :: _ =>
      if isDig c then
        (let (ds, r) := cs1.span isDig
         some (ds, r))
      else none
    | [] => none
  match intPart with
  | none => Except.error "bad number"
  | some (ip, r1) =>
    let fracPart : Option (List Char × List Char) :=
      match r1 with
      | '.' :: r2 =>
        (let (ds, r3) := r2.span isDig
         if ds = [] then none else some (ds, r3))
      | _ => some ([], r1)
    match fracPart with
    | none => Except.error "bad number"
    | some (fp, r3) =>
      let expPart : Option (ℤ × List Char) :=
        match r3 with
        | e :: r4 =>
          if e = 'e' || e = 'E' then
            match r4 with
            | '+' :: r5 =>
              (let (ds, r6) := r5.span isDig
               if ds = [] then none else some ((digitsToNat ds : ℤ), r6))
            | '-' :: r5 =>
              (let (ds, r6) := r5.span isDig
               if ds = [] then none else some (-(digitsToNat ds : ℤ), r6))
            | _ =>
              (let (ds, r6) := r4.span isDig
               if ds = [] then none else some ((digitsToNat ds : ℤ), r6))
          else some (0, r3)
        | [] => some (0, r3)
      match expPart with
      | none => Except.error "bad number"
      | some (e, rest) =>
        let q := decValue ip fp e
        Except.ok (applyOverflow (if neg then -q else q), rest)

mutual
def pVal (fuel : ℕ) (cs : List Char) : Except String (JsVal × List Char) :=
  match fuel with
  | 0 => Except.error "out of fuel"
  | fuel + 1 =>
    match skipWs cs with
    | [] => Except.error "unexpected end of input"
    | c :: t =>
      if c = '"' then (pStr fuel t).map (fun r => (JsVal.str (String.mk r.1), r.2))
      else if c = '[' then
        match skipWs t with
        | ']' :: t2 => Except.ok (JsVal.arr JsArr.nil, t2)
        | t2 => (pArrItems fuel t2).map (fun r => (JsVal.arr r.1, r.2))
      else if c = '\x7b' then
        match skipWs t with
        | '\x7d' :: t2 => Except.ok (JsVal.obj JsProps.nil, t2)
        | t2 => (pObjItems fuel JsProps.nil t2).map (fun r => (JsVal.obj r.1, r.2))
      else
        match c :: t with
        | 't' :: 'r' :: 'u' :: 'e' :: t2 => Except.ok (JsVal.bool true, t2)
        | 'f' :: 'a' :: 'l' :: 's' :: 'e' :: t2 => Except.ok (JsVal.bool false, t2)
        | 'n' :: 'u' :: 'l' :: 'l' :: t2 => Except.ok (JsVal.null, t2)
        | cs2 => (pNum cs2).map (fun r => (JsVal.num r.1, r.2))

def pArrItems (fuel : ℕ) (cs : List Char) : Except String (JsArr × List Char) :=
  match fuel with
  | 0 => Except.error "out of fuel"
  | fuel + 1 =>
    match pVal fuel cs with
    | Except.error e => Except.error e
    | Except.ok (v, rest) =>
      match skipWs rest with
      | ',' :: t => (pArrItems fuel t).map (fun r => (JsArr.cons v r.1, r.2))
      | ']' :: t => Except.ok (JsArr.cons v JsArr.nil, t)
      | _ => Except.error "expected comma or closing bracket"

def pObjItems (fuel : ℕ) (acc : JsProps) (cs : List Char) :
    Except String (JsProps × List Char) :=
  match fuel with
  | 0 => Except.error "out of fuel"
  | fuel + 1 =>
    match skipWs cs with
    | '"' :: t =>
      match pStr fuel t with
      | Except.error e => Except.error e
      | Except.ok (kcs, rest) =>
        match skipWs rest with
        | ':' :: t2 =>
          match pVal fuel t2 with
          | Except.error e => Except.error e
          | Except.ok (v, rest2) =>
            let acc2 := objInsert acc (String.mk kcs) v
            match skipWs rest2 with
            | ',' :: t3 => pObjItems fuel acc2 t3
            | '\x7d' :: t3 => Except.ok (acc2, t3)
            | _ => Except.error "expected comma or closing brace"
        | _ => Except.error "expected colon"
    | _ => Except.error "expected property name"
end

/-- JSON.parse of a whole string. -/
def jsonParse (s : String) : Except String JsVal :=
  match pVal (2 * s.data.length + 4) s.data with
  | Except.error e => Except.error e
  | Except.ok (v, rest) =>
    if skipWs rest = [] then Except.ok v
    else Except.error "unexpected trailing characters"

/-!
The escapeHtml helper of open(): five sequential global single-character
replacements, ampersand first.
-/

/-- JS String.replace with a global single-character pattern: every
occurrence of the character is replaced by the given text. -/
def replAllChar (c : Char) (rep : String) (s : String) : String :=
  String.mk (mapConcat (fun x => if x = c then rep.data else [x]) s.data)

/-- escapeHtml from the source (the replacement order is the source order:
amp, lt, gt, quot, apostrophe). -/
def escapeHtml (s : String) : String :=
  replAllChar '\'' "&#39;"
    (replAllChar '"' "&quot;"
      (replAllChar '>' "&gt;"
        (replAllChar '<' "&lt;"
          (replAllChar '&' "&amp;" s))))

/-- The default footer text used when the option is absent or empty. -/
def defaultFooter : String :=
  "Click ✎ to edit values. Press ✓ to save or ESC to cancel. Boolean values can be toggled."

/-- The safeFooter computation in open(): a missing or falsy (empty)
footerText option falls back to the default, then is HTML-escaped. -/
def safeFooterOf (footerText : Option String) : String :=
  escapeHtml
    (match footerText with
     | none => defaultFooter
     | some t => if t = "" then defaultFooter else t)

/-- Specification-side single-pass character escaping: each of the five
special characters maps to its entity, all others stay themselves. -/
def escCharSpec (c : Char) : List Char :=
  if c = '&' then "&amp;".data
  else if c = '<' then "&lt;".data
  else if c = '>' then "&gt;".data
  else if c = '"' then "&quot;".data
  else if c = '\'' then "&#39;".data
  else [c]

/-!
The viewer. A Row models one tr element of the tbody together with the
pieces of nested DOM state the code reads and writes: the two data
attributes used as caches, the displayArea text node, the editor element's
value (the edit buffer), the row-editing class, the errorBox, and the edit
button label. The freshly created errorBox div carries no inline display
style, so it starts visible (with empty text). elemId models DOM element
identity (a patched row keeps its element, a recreated row gets a new one).
-/

structure Row where
  elemId : ℕ
  key : String
  rowId : String
  rowType : String
  dataDisplay : String
  dataEditor : String
  displayAreaText : String
  editorElValue : String
  editing : Bool
  displayShown : Bool
  editShown : Bool
  errorVisible : Bool
  errorText : String
  btnLabel : String
deriving DecidableEq

structure ViewerState where
  rows : List Row
  nextId : ℕ
deriving DecidableEq

/-- Observable DOM mutations performed by a reconciliation pass: row
creations, text/editor-value updates, row removals, and the unconditional
tbody.appendChild of every matched row, which detaches the element and
re-inserts it at the end of the tbody (a childList mutation that also blurs
any focused descendant, even when the final order comes back unchanged). -/
inductive Event where
  | created (rid : String) : Event
  | textUpdated (rid : String) : Event
  | removed (rid : String) : Event
  | reAppended (rid : String) : Event
deriving DecidableEq

/-- createRow from loadEntries: builds a fresh tr for an entry, appended to
the tbody; attachEditHandler then sets the button label from the row type. -/
def createRow (n : ℕ) (key : String) (v : JsVal) : Row :=
  let d := formatDisplayValue v
  let e := formatEditorValue v
  let t := getType v
  { elemId := n, key := key, rowId := getRowId key v, rowType := t,
    dataDisplay := d, dataEditor := e, displayAreaText := d, editorElValue := e,
    editing := false, displayShown := true, editShown := false,
    errorVisible := true, errorText := "",
    btnLabel := if t = "boolean" then "⇄" else "✎" }

/-- The in-place patch loadEntries applies to a matched row: when the cached
displayValue differs from the fresh one it rewrites both data attributes, the
display text node and the editor element's value; otherwise it touches
nothing. The Bool reports whether an update happened. -/
def patchRow (r : Row) (d e : String) : Row × Bool :=
  if r.dataDisplay = d then (r, false)
  else
    ({ r with dataDisplay := d, dataEditor := e, displayAreaText := d, editorElValue := e },
      true)

/-- document.querySelector for tr elements with the given data-row-id when
the identity is selector-safe: the first row in document order whose
attribute equals it (loadEntriesChecked below guards the call with
selectorSafe, modelling the exception path of the unescaped selector). -/
def findRow : List Row → String → Option Row
  | [], _ => none
  | r :: t, rid => if r.rowId = rid then some r else findRow t rid

/-- Detach the first row carrying the given data-row-id (the re-append of a
matched row moves exactly that element). -/
def removeRow : List Row → String → List Row
  | [], _ => []
  | r :: t, rid => if r.rowId = rid then t else r :: removeRow t rid

/-- JS Array.prototype.includes on the visibleKeys array. -/
def listHas : List String → String → Bool
  | [], _ => false
  | s :: t, x => s = x || listHas t x

/-- The filter test of the loadEntries loop and of the onChanged listener. -/
def passes (bf uf : String) (kv : String × JsVal) : Bool :=
  jsIncludes kv.1 bf && jsIncludes kv.1 uf

/-- The row identities pushed onto visibleKeys by a pass over the entries. -/
def ridsOf (bf uf : String) (es : List (String × JsVal)) : List String :=
  (es.filter (passes bf uf)).map (fun kv => getRowId kv.1 kv.2)

structure LoadAcc where
  rows : List Row
  nextId : ℕ
  visibleKeys : List String
  events : List Event

/-- One iteration of the for-of loop of loadEntries: entries failing the
filters are skipped; a matched row is patched and re-appended to the tbody
(moving it to the end); an unmatched entry gets a freshly created row. -/
def stepEntry (bf uf : String) (acc : LoadAcc) (kv : String × JsVal) : LoadAcc :=
  if passes bf uf kv then
    let rid := getRowId kv.1 kv.2
    let d := formatDisplayValue kv.2
    let e := formatEditorValue kv.2
    let acc1 := { acc with visibleKeys := acc.visibleKeys ++ [rid] }
    match findRow acc1.rows rid with
    | some r =>
      let pr := patchRow r d e
      { acc1 with rows := removeRow acc1.rows rid ++ [pr.1],
                  events := acc1.events ++ (if pr.2 then [Event.textUpdated rid] else []) ++
                    [Event.reAppended rid] }
    | none =>
      { acc1 with rows := acc1.rows ++ [createRow acc1.nextId kv.1 kv.2],
                  nextId := acc1.nextId + 1,
                  events := acc1.events ++ [Event.created rid] }
  else acc

def processEntries (bf uf : String) : List (String × JsVal) → LoadAcc → LoadAcc
  | [], acc => acc
  | kv :: rest, acc => processEntries bf uf rest (stepEntry bf uf acc kv)

/-- loadEntries on a successfully read entry set: the loop over the entries
followed by the removal of every rendered row whose identity is not in
visibleKeys. Returns the new view state and the DOM mutations performed. -/
def loadEntries (all : List (String × JsVal)) (bf uf : String) (s : ViewerState) :
    ViewerState × List Event :=
  let acc := processEntries bf uf all ⟨s.rows, s.nextId, [], []⟩
  let kept := acc.rows.filter (fun r => listHas acc.visibleKeys r.rowId)
  let removedEvs :=
    (acc.rows.filter (fun r => !listHas acc.visibleKeys r.rowId)).map
      (fun r => Event.removed r.rowId)
  (⟨kept, acc.nextId⟩, acc.events ++ removedEvs)

/-- loadEntries as called: the bulk read result is awaited first; if the read
rejects, the function aborts before touching any DOM state, and since no
caller installs a rejection handler the failure only propagates outward
(returned here as the third component). -/
def loadEntriesTry (res : Except String (List (String × JsVal))) (bf uf : String)
    (s : ViewerState) : ViewerState × List Event × Option String :=
  match res with
  | Except.error e => (s, [], some e)
  | Except.ok all =>
    let r := loadEntries all bf uf s
    (r.1, r.2, none)

/-- A row identity that can be interpolated verbatim into the double-quoted
attribute selector of the querySelector call. A double quote or a CSS
newline (line feed, carriage return, form feed) makes the selector string
invalid, so the real call throws a SyntaxError; a backslash begins a CSS
escape whose decoding (typically a silent mismatch against the raw
attribute value, an unterminated string when trailing) is outside the
modelled fragment, so the checked pass conservatively aborts on it too —
no theorem below depends on the backslash corner in either direction. -/
def selectorSafe (rid : String) : Bool :=
  rid.data.all (fun c => !(c = '"' || c = '\\' || c = '\n' || c = '\r' || c = '\x0c'))

/-- One checked loop iteration: visibleKeys is pushed before the
querySelector call (as in the source), and a selector-breaking identity
makes the call throw instead of looking anything up. -/
def stepEntryChecked (bf uf : String) (acc : LoadAcc) (kv : String × JsVal) :
    LoadAcc × Option String :=
  if passes bf uf kv then
    let rid := getRowId kv.1 kv.2
    if selectorSafe rid then (stepEntry bf uf acc kv, none)
    else ({ acc with visibleKeys := acc.visibleKeys ++ [rid] },
      some "SyntaxError: unescaped row id breaks the attribute selector")
  else (acc, none)

/-- The checked loop: a thrown SyntaxError aborts the remaining iterations
(and, in loadEntriesChecked, the removal step), keeping the mutations made
so far. -/
def processEntriesChecked (bf uf : String) :
    List (String × JsVal) → LoadAcc → LoadAcc × Option String
  | [], acc => (acc, none)
  | kv :: rest, acc =>
    match stepEntryChecked bf uf acc kv with
    | (acc2, none) => processEntriesChecked bf uf rest acc2
    | (acc2, some e) => (acc2, some e)

/-- loadEntries with the querySelector exception path modelled: on a
selector-breaking visible identity the pass aborts mid-loop — the partially
mutated tbody remains, the removal step never runs, and the exception
propagates to the caller unhandled (third component). -/
def loadEntriesChecked (all : List (String × JsVal)) (bf uf : String) (s : ViewerState) :
    ViewerState × List Event × Option String :=
  match processEntriesChecked bf uf all ⟨s.rows, s.nextId, [], []⟩ with
  | (acc, some e) => (⟨acc.rows, acc.nextId⟩, acc.events, some e)
  | (acc, none) =>
    let kept := acc.rows.filter (fun r => listHas acc.visibleKeys r.rowId)
    let removedEvs :=
      (acc.rows.filter (fun r => !listHas acc.visibleKeys r.rowId)).map
        (fun r => Event.removed r.rowId)
    (⟨kept, acc.nextId⟩, acc.events ++ removedEvs, none)

/-!
The per-row handlers from attachEditHandler. A storage.set call is an
external effect whose outcome is passed in as an Except; the Option result
reports the write request issued, if any.
-/

/-- The success continuation of setValue (after the awaited set resolves):
update the display text node and both data attribute caches. The editor
element's value is not touched here. -/
def setValueOk (r : Row) (v : JsVal) : Row :=
  let d := formatDisplayValue v
  let e := formatEditorValue v
  { r with displayAreaText := d, dataDisplay := d, dataEditor := e }

/-- enterEdit: mark the row as editing, snapshot the cached editor value into
the editor element, swap the visible sub-area, hide the error box. -/
def enterEdit (r : Row) : Row :=
  { r with editing := true, editorElValue := r.dataEditor,
           displayShown := false, editShown := true,
           errorVisible := false, btnLabel := "✓" }

/-- cancelEdit: leave editing mode and restore the display sub-area. -/
def cancelEdit (r : Row) : Row :=
  { r with editing := false, displayShown := true, editShown := false,
           errorVisible := false, btnLabel := "✎" }

/-- The boolean toggle click handler: hide the error box, then set the key to
the negation of the cached displayed value. On success the display and both
caches flip (the transient row-editing pulse class that a timer removes after
300ms is modelled at its settled state); on rejection nothing after the await
runs, and the catch block shows the error text. The write request is issued
in both cases. -/
def toggleClick (r : Row) (setResult : Except String Unit) :
    Row × Option (String × JsVal) :=
  let r0 := { r with errorVisible := false }
  let newB : Bool := if r.dataDisplay = "true" then false else true
  match setResult with
  | Except.ok _ => (setValueOk r0 (JsVal.bool newB), some (r.key, JsVal.bool newB))
  | Except.error e =>
    ({ r0 with errorText := "Toggle failed: " ++ e, errorVisible := true },
      some (r.key, JsVal.bool newB))

/-- The conversion step of saveEdit: object rows parse the buffer as JSON,
number rows convert with Number() and reject non-finite results (the thrown
error stringifies to the fixed text below), all other rows take the text
verbatim. -/
def parseNewVal (r : Row) : Except String JsVal :=
  if r.rowType = "object" then jsonParse r.editorElValue
  else if r.rowType = "number" then
    match jsToNumber r.editorElValue with
    | JsNum.finite q => Except.ok (JsVal.num (JsNum.finite q))
    | _ => Except.error "Error: Value is not a number"
  else Except.ok (JsVal.str r.editorElValue)

/-- saveEdit: convert the edit buffer; a conversion failure is caught before
any write is issued. On a successful conversion the write is issued; if it
rejects the catch block shows the error and the row stays as it was, and if
it resolves the setValue updates run and cancelEdit leaves editing mode. -/
def saveEdit (r : Row) (setResult : Except String Unit) :
    Row × Option (String × JsVal) :=
  match parseNewVal r with
  | Except.error msg =>
    ({ r with errorText := "Save failed: " ++ msg, errorVisible := true }, none)
  | Except.ok v =>
    match setResult with
    | Except.error e =>
      ({ r with errorText := "Save failed: " ++ e, errorVisible := true },
        some (r.key, v))
    | Except.ok _ => (cancelEdit (setValueOk r v), some (r.key, v))

/-- The rendered rows match the filter-passing entries pointwise, in
enumeration order, with fresh cached display text. This is the shape of the
tbody after a successful reconciliation pass. -/
def Fits (bf uf : String) : List (String × JsVal) → List Row → Prop
  | [], rows => rows = []
  | kv :: es, rows =>
    if passes bf uf kv = true then
      match rows with
      | [] => False
      | r :: rs =>
        r.rowId = getRowId kv.1 kv.2 ∧ r.dataDisplay = formatDisplayValue kv.2 ∧
          Fits bf uf es rs
    else Fits bf uf es rows


/-! Concrete states used to evaluate the model at specific inputs. -/

/-- A string-typed row for key a in Editing mode, with cached display "x" and
an edit buffer holding user-typed text. -/
def c1row : Row :=
  { elemId := 0, key := "a", rowId := "a.string", rowType := "string",
    dataDisplay := "x", dataEditor := "x", displayAreaText := "x",
    editorElValue := "typed", editing := true, displayShown := false,
    editShown := true, errorVisible := false, errorText := "", btnLabel := "✓" }

/-- An object-typed row in Editing mode whose edit buffer holds the JSON
text "a" (a quoted string). -/
def c7row : Row :=
  { elemId := 0, key := "k", rowId := "k.object", rowType := "object",
    dataDisplay := "\x7b\x7d", dataEditor := "\x7b\x7d", displayAreaText := "\x7b\x7d",
    editorElValue := "\"a\"", editing := true, displayShown := false,
    editShown := true, errorVisible := false, errorText := "", btnLabel := "✓" }

/-- An object-typed row in Editing mode whose edit buffer holds the JSON
object text for x mapped to 1. -/
def c7brow : Row :=
  { elemId := 0, key := "k", rowId := "k.object", rowType := "object",
    dataDisplay := "\x7b\x7d", dataEditor := "\x7b\x7d", displayAreaText := "\x7b\x7d",
    editorElValue := "\x7b\"x\":1\x7d", editing := true, displayShown := false,
    editShown := true, errorVisible := false, errorText := "", btnLabel := "✓" }

/-- A number-typed row in Editing mode whose edit buffer holds "abc". -/
def c6row : Row :=
  { elemId := 0, key := "n", rowId := "n.number", rowType := "number",
    dataDisplay := "7", dataEditor := "7", displayAreaText := "7",
    editorElValue := "abc", editing := true, displayShown := false,
    editShown := true, errorVisible := false, errorText := "", btnLabel := "✓" }

/-- A number-typed row in Editing mode whose edit buffer holds one space. -/
def c10row : Row :=
  { elemId := 0, key := "n", rowId := "n.number", rowType := "number",
    dataDisplay := "7", dataEditor := "7", displayAreaText := "7",
    editorElValue := " ", editing := true, displayShown := false,
    editShown := true, errorVisible := false, errorText := "", btnLabel := "✓" }

/-- A boolean-typed row displaying true. -/
def c5row : Row :=
  { elemId := 0, key := "flag", rowId := "flag.boolean", rowType := "boolean",
    dataDisplay := "true", dataEditor := "true", displayAreaText := "true",
    editorElValue := "true", editing := false, displayShown := true,
    editShown := false, errorVisible := true, errorText := "", btnLabel := "⇄" }

def c1state : ViewerState := ⟨[c1row], 1⟩

def emptyState : ViewerState := ⟨[], 0⟩

/-! Lemmas about substring containment. -/

lemma leadsWith_iff : ∀ (hay nee : List Char), leadsWith hay nee = true ↔ nee <+: hay
  | _, [] => by simp [leadsWith]
  | [], _ :: _ => by simp [leadsWith]
  | a :: xs, b :: ys => by
    simp only [leadsWith, Bool.and_eq_true, decide_eq_true_eq, List.cons_prefix_cons]
    rw [leadsWith_iff xs ys]
    constructor
    · rintro ⟨h1, h2⟩
      exact ⟨h1.symm, h2⟩
    · rintro ⟨h1, h2⟩
      exact ⟨h1.symm, h2⟩

lemma hasSub_iff : ∀ (hay nee : List Char), hasSub hay nee = true ↔ nee <:+: hay
  | [], nee => by
    simp [hasSub, List.isEmpty_iff, List.infix_nil]
  | h :: t, nee => by
    simp only [hasSub, Bool.or_eq_true, leadsWith_iff, hasSub_iff t nee,
      List.infix_cons_iff]

lemma jsIncludes_iff (s pat : String) :
    jsIncludes s pat = true ↔ pat.data <:+: s.data := hasSub_iff s.data pat.data

/-! Injectivity of the row identity. -/

lemma append_dot_inj :
    ∀ (a1 b1 a2 b2 : List Char), '.' ∉ b1 → '.' ∉ b2 →
      a1 ++ '.' :: b1 = a2 ++ '.' :: b2 → a1 = a2 ∧ b1 = b2
  | [], b1, [], b2, _, _, h => by simpa using h
  | [], b1, x :: a2, b2, hb1, _, h => by
    simp only [List.nil_append, List.cons_append, List.cons.injEq] at h
    exact absurd (h.2 ▸ List.mem_append_right a2 (List.mem_cons_self '.' b2)) hb1
  | x :: a1, b1, [], b2, _, hb2, h => by
    simp only [List.nil_append, List.cons_append, List.cons.injEq] at h
    exact absurd (h.2.symm ▸ List.mem_append_right a1 (List.mem_cons_self '.' b1)) hb2
  | x :: a1, b1, y :: a2, b2, hb1, hb2, h => by
    simp only [List.cons_append, List.cons.injEq] at h
    obtain ⟨h1, h2⟩ := append_dot_inj a1 b1 a2 b2 hb1 hb2 h.2
    exact ⟨by rw [h.1, h1], h2⟩

lemma dot_not_mem_getType (v : JsVal) : '.' ∉ (getType v).data := by
  cases v <;> simp only [getType] <;> decide

lemma getRowId_inj {k1 k2 : String} {v1 v2 : JsVal}
    (h : getRowId k1 v1 = getRowId k2 v2) : k1 = k2 ∧ getType v1 = getType v2 := by
  have hd : k1.data ++ '.' :: (getType v1).data = k2.data ++ '.' :: (getType v2).data := by
    have := congrArg String.data h
    simpa [getRowId, String.data_append] using this
  obtain ⟨h1, h2⟩ :=
    append_dot_inj _ _ _ _ (dot_not_mem_getType v1) (dot_not_mem_getType v2) hd
  exact ⟨congrArg String.mk h1, congrArg String.mk h2⟩

/-! Small helpers about the viewer primitives. -/

lemma listHas_iff : ∀ (l : List String) (x : String), listHas l x = true ↔ x ∈ l
  | [], x => by simp [listHas]
  | s :: t, x => by
    simp only [listHas, Bool.or_eq_true, decide_eq_true_eq, listHas_iff t x, List.mem_cons]
    exact or_congr_left eq_comm

lemma listHas_eq_false {l : List String} {x : String} (h : x ∉ l) :
    listHas l x = false := by
  cases hl : listHas l x
  · rfl
  · exact absurd ((listHas_iff l x).mp hl) h

lemma findRow_none : ∀ (rows : List Row) (rid : String),
    findRow rows rid = none → ∀ r ∈ rows, r.rowId ≠ rid
  | [], _, _ => by simp
  | r :: t, rid, h => by
    by_cases hr : r.rowId = rid
    · simp [findRow, hr] at h
    · intro x hx
      rcases List.mem_cons.mp hx with rfl | hx
      · exact hr
      · exact findRow_none t rid (by simpa [findRow, hr] using h) x hx

lemma findRow_some : ∀ (rows : List Row) (rid : String) (r : Row),
    findRow rows rid = some r → r ∈ rows ∧ r.rowId = rid
  | [], _, _, h => by simp [findRow] at h
  | r0 :: t, rid, r, h => by
    by_cases hr : r0.rowId = rid
    · simp only [findRow, if_pos hr, Option.some.injEq] at h
      exact ⟨h ▸ List.mem_cons_self r0 t, h ▸ hr⟩
    · obtain ⟨h1, h2⟩ := findRow_some t rid r (by simpa [findRow, hr] using h)
      exact ⟨List.mem_cons_of_mem r0 h1, h2⟩

lemma removeRow_perm : ∀ (rows : List Row) (rid : String) (r : Row),
    findRow rows rid = some r → rows.Perm (r :: removeRow rows rid)
  | [], _, _, h => by simp [findRow] at h
  | r0 :: t, rid, r, h => by
    by_cases hr : r0.rowId = rid
    · simp only [findRow, if_pos hr, Option.some.injEq] at h
      subst h
      simp only [removeRow, if_pos hr]
      exact List.Perm.refl _
    · have ih := removeRow_perm t rid r (by simpa [findRow, hr] using h)
      have h2 : (r0 :: t).Perm (r :: r0 :: removeRow t rid) :=
        (ih.cons r0).trans (List.Perm.swap r r0 (removeRow t rid))
      simpa only [removeRow, if_neg hr] using h2

lemma mem_removeRow_of_ne : ∀ (rows : List Row) (rid : String) (r : Row),
    r ∈ rows → r.rowId ≠ rid → r ∈ removeRow rows rid
  | [], _, _, h, _ => by simp at h
  | r0 :: t, rid, r, h, hne => by
    by_cases hr : r0.rowId = rid
    · simp only [removeRow, if_pos hr]
      rcases List.mem_cons.mp h with rfl | h
      · exact absurd hr hne
      · exact h
    · simp only [removeRow, if_neg hr]
      rcases List.mem_cons.mp h with rfl | h
      · exact List.mem_cons_self r _
      · exact List.mem_cons_of_mem r0 (mem_removeRow_of_ne t rid r h hne)

lemma mem_removeRow_of_ne_found : ∀ (rows : List Row) (rid : String) (r r0 : Row),
    r ∈ rows → findRow rows rid = some r0 → r ≠ r0 → r ∈ removeRow rows rid
  | [], _, _, _, h, _, _ => by simp at h
  | r1 :: t, rid, r, r0, h, hf, hne => by
    by_cases hr : r1.rowId = rid
    · simp only [findRow, if_pos hr, Option.some.injEq] at hf
      subst hf
      simp only [removeRow, if_pos hr]
      rcases List.mem_cons.mp h with rfl | h
      · exact absurd rfl hne
      · exact h
    · simp only [removeRow, if_neg hr]
      rcases List.mem_cons.mp h with rfl | h
      · exact List.mem_cons_self r _
      · exact List.mem_cons_of_mem r1
          (mem_removeRow_of_ne_found t rid r r0 h (by simpa [findRow, hr] using hf) hne)

lemma patchRow_rowId (r : Row) (d e : String) : (patchRow r d e).1.rowId = r.rowId := by
  unfold patchRow
  split <;> rfl

lemma patchRow_display (r : Row) (d e : String) : (patchRow r d e).1.dataDisplay = d := by
  unfold patchRow
  split
  · next h => exact h
  · rfl

lemma patchRow_self {r : Row} {d : String} (e : String) (h : r.dataDisplay = d) :
    patchRow r d e = (r, false) := by
  unfold patchRow
  simp [h]

lemma createRow_rowId (n : ℕ) (k : String) (v : JsVal) :
    (createRow n k v).rowId = getRowId k v := rfl

lemma createRow_display (n : ℕ) (k : String) (v : JsVal) :
    (createRow n k v).dataDisplay = formatDisplayValue v := rfl

lemma ridsOf_nil (bf uf : String) : ridsOf bf uf [] = [] := rfl

lemma ridsOf_cons_pos {bf uf : String} {kv : String × JsVal} {es : List (String × JsVal)}
    (h : passes bf uf kv = true) :
    ridsOf bf uf (kv :: es) = getRowId kv.1 kv.2 :: ridsOf bf uf es := by
  simp [ridsOf, List.filter_cons, h]

lemma ridsOf_cons_neg {bf uf : String} {kv : String × JsVal} {es : List (String × JsVal)}
    (h : passes bf uf kv = false) :
    ridsOf bf uf (kv :: es) = ridsOf bf uf es := by
  simp [ridsOf, List.filter_cons, h]

/-! Unfolding equations for one loop iteration. -/

lemma stepEntry_neg {bf uf : String} {kv : String × JsVal} (acc : LoadAcc)
    (h : passes bf uf kv = false) : stepEntry bf uf acc kv = acc := by
  simp [stepEntry, h]

lemma stepEntry_found {bf uf : String} {kv : String × JsVal} (acc : LoadAcc) (r0 : Row)
    (h : passes bf uf kv = true)
    (hf : findRow acc.rows (getRowId kv.1 kv.2) = some r0) :
    stepEntry bf uf acc kv =
      { rows := removeRow acc.rows (getRowId kv.1 kv.2) ++
          [(patchRow r0 (formatDisplayValue kv.2) (formatEditorValue kv.2)).1],
        nextId := acc.nextId,
        visibleKeys := acc.visibleKeys ++ [getRowId kv.1 kv.2],
        events := acc.events ++
          (if (patchRow r0 (formatDisplayValue kv.2) (formatEditorValue kv.2)).2 then
            [Event.textUpdated (getRowId kv.1 kv.2)] else []) ++
          [Event.reAppended (getRowId kv.1 kv.2)] } := by
  simp [stepEntry, h, hf]

lemma stepEntry_new {bf uf : String} {kv : String × JsVal} (acc : LoadAcc)
    (h : passes bf uf kv = true)
    (hf : findRow acc.rows (getRowId kv.1 kv.2) = none) :
    stepEntry bf uf acc kv =
      { rows := acc.rows ++ [createRow acc.nextId kv.1 kv.2],
        nextId := acc.nextId + 1,
        visibleKeys := acc.visibleKeys ++ [getRowId kv.1 kv.2],
        events := acc.events ++ [Event.created (getRowId kv.1 kv.2)] } := by
  simp [stepEntry, h, hf]

lemma processEntries_nil (bf uf : String) (acc : LoadAcc) :
    processEntries bf uf [] acc = acc := rfl

lemma processEntries_cons (bf uf : String) (kv : String × JsVal)
    (es : List (String × JsVal)) (acc : LoadAcc) :
    processEntries bf uf (kv :: es) acc =
      processEntries bf uf es (stepEntry bf uf acc kv) := rfl

/-- The visibleKeys array collected by the loop: the identities of the
filter-passing entries, in enumeration order. -/
lemma pe_vis (bf uf : String) : ∀ (es : List (String × JsVal)) (acc : LoadAcc),
    (processEntries bf uf es acc).visibleKeys = acc.visibleKeys ++ ridsOf bf uf es
  | [], acc => by simp [processEntries_nil, ridsOf_nil]
  | kv :: es, acc => by
    rw [processEntries_cons]
    by_cases hp : passes bf uf kv
    · cases hfind : findRow acc.rows (getRowId kv.1 kv.2) with
      | some r0 =>
        rw [stepEntry_found acc r0 hp hfind, pe_vis bf uf es _]
        simp [ridsOf_cons_pos hp]
      | none =>
        rw [stepEntry_new acc hp hfind, pe_vis bf uf es _]
        simp [ridsOf_cons_pos hp]
    · rw [stepEntry_neg acc (by simpa using hp), pe_vis bf uf es _,
        ridsOf_cons_neg (by simpa using hp)]

/-- A row that no passing entry would patch differently survives the whole
loop unchanged (it is at most moved by the re-appends). -/
lemma pe_mem (bf uf : String) : ∀ (es : List (String × JsVal)) (acc : LoadAcc) (r : Row),
    r ∈ acc.rows →
    (∀ kv ∈ es, passes bf uf kv = true → getRowId kv.1 kv.2 = r.rowId →
      formatDisplayValue kv.2 = r.dataDisplay) →
    r ∈ (processEntries bf uf es acc).rows
  | [], acc, r, hr, _ => by simpa [processEntries_nil] using hr
  | kv :: es, acc, r, hr, hagree => by
    rw [processEntries_cons]
    have hagree' : ∀ kv' ∈ es, passes bf uf kv' = true → getRowId kv'.1 kv'.2 = r.rowId →
        formatDisplayValue kv'.2 = r.dataDisplay :=
      fun kv' h1 h2 h3 => hagree kv' (List.mem_cons_of_mem kv h1) h2 h3
    by_cases hp : passes bf uf kv
    · cases hfind : findRow acc.rows (getRowId kv.1 kv.2) with
      | some r0 =>
        rw [stepEntry_found acc r0 hp hfind]
        refine pe_mem bf uf es _ r ?_ hagree'
        by_cases hrid : r.rowId = getRowId kv.1 kv.2
        · by_cases hr0 : r = r0
          · subst hr0
            have hd : r.dataDisplay = formatDisplayValue kv.2 :=
              (hagree kv (List.mem_cons_self kv es) hp hrid.symm).symm
            rw [patchRow_self (formatEditorValue kv.2) hd]
            exact List.mem_append_right _ (List.mem_singleton.mpr rfl)
          · exact List.mem_append_left _
              (mem_removeRow_of_ne_found acc.rows _ r r0 hr (hrid ▸ hfind) hr0)
        · exact List.mem_append_left _ (mem_removeRow_of_ne acc.rows _ r hr hrid)
      | none =>
        rw [stepEntry_new acc hp hfind]
        exact pe_mem bf uf es _ r (List.mem_append_left _ hr) hagree'
    · rw [stepEntry_neg acc (by simpa using hp)]
      exact pe_mem bf uf es acc r hr hagree'

/-- One loop iteration preserves distinctness of the rendered identities. -/
lemma step_nodup {bf uf : String} {kv : String × JsVal} (acc : LoadAcc)
    (h : (acc.rows.map (fun r => r.rowId)).Nodup) :
    ((stepEntry bf uf acc kv).rows.map (fun r => r.rowId)).Nodup := by
  by_cases hp : passes bf uf kv
  · cases hfind : findRow acc.rows (getRowId kv.1 kv.2) with
    | some r0 =>
      rw [stepEntry_found acc r0 hp hfind]
      have hperm := removeRow_perm acc.rows (getRowId kv.1 kv.2) r0 hfind
      have hperm2 : (acc.rows.map (fun r => r.rowId)).Perm
          (r0.rowId :: (removeRow acc.rows (getRowId kv.1 kv.2)).map (fun r => r.rowId)) := by
        simpa using hperm.map (fun r => r.rowId)
      have h2 := hperm2.nodup h
      rw [List.nodup_cons] at h2
      have h3 : ((removeRow acc.rows (getRowId kv.1 kv.2)).map (fun r => r.rowId) ++
          [(patchRow r0 (formatDisplayValue kv.2) (formatEditorValue kv.2)).1.rowId]).Nodup := by
        rw [List.nodup_append]
        refine ⟨h2.2, List.nodup_singleton _, ?_⟩
        intro x hx
        rw [patchRow_rowId]
        simp only [List.mem_singleton]
        intro hxeq
        subst hxeq
        exact h2.1 hx
      simpa using h3
    | none =>
      rw [stepEntry_new acc hp hfind]
      have hnone := findRow_none acc.rows _ hfind
      have : (acc.rows.map (fun r => r.rowId) ++ [(createRow acc.nextId kv.1 kv.2).rowId]).Nodup := by
        rw [List.nodup_append]
        refine ⟨h, List.nodup_singleton _, ?_⟩
        intro x hx
        simp only [List.mem_singleton]
        obtain ⟨r, hrmem, hrx⟩ := List.mem_map.mp hx
        rw [createRow_rowId]
        intro hxeq
        exact hnone r hrmem (hrx.trans hxeq)
      simpa using this
  · rw [stepEntry_neg acc (by simpa using hp)]
    exact h

lemma fits_rowIds (bf uf : String) : ∀ (es : List (String × JsVal)) (rows : List Row),
    Fits bf uf es rows → rows.map (fun r => r.rowId) = ridsOf bf uf es
  | [], rows, h => by
    rw [show rows = [] from h]
    simp [ridsOf_nil]
  | kv :: es, rows, h => by
    by_cases hp : passes bf uf kv
    · rw [ridsOf_cons_pos hp]
      simp only [Fits, if_pos hp] at h
      match rows, h with
      | r :: rs, ⟨h1, _, h3⟩ =>
        simp only [List.map_cons, h1, fits_rowIds bf uf es rs h3]
    · rw [ridsOf_cons_neg (by simpa using hp)]
      simp only [Fits, if_neg hp] at h
      exact fits_rowIds bf uf es rows h

/-- Detaching the row carrying an identity and filtering by the remaining
identities is the same as filtering by all of them at once (identities are
distinct). -/
lemma removeRow_filter (rid : String) (R : List String) :
    ∀ rows : List Row, (rows.map (fun r => r.rowId)).Nodup →
      (removeRow rows rid).filter (fun r => !listHas R r.rowId) =
        rows.filter (fun r => !listHas (rid :: R) r.rowId)
  | [], _ => by simp [removeRow]
  | hd :: tl, hnodup => by
    rw [List.map_cons, List.nodup_cons] at hnodup
    by_cases hh : hd.rowId = rid
    · rw [removeRow, if_pos hh]
      have hdrop : listHas (rid :: R) hd.rowId = true := by
        rw [listHas_iff]
        exact hh ▸ List.mem_cons_self _ _
      rw [List.filter_cons_of_neg (by simp [hdrop])]
      refine List.filter_congr ?_
      intro r hr
      have hrne : r.rowId ≠ rid := by
        intro hcon
        exact hnodup.1 (hh ▸ hcon ▸ List.mem_map_of_mem (fun r => r.rowId) hr)
      simp [listHas, Ne.symm hrne]
    · rw [removeRow, if_neg hh]
      by_cases hkeep : listHas R hd.rowId
      · rw [List.filter_cons_of_neg (by simp [hkeep]),
          List.filter_cons_of_neg (by simp [listHas, hkeep]),
          removeRow_filter rid R tl hnodup.2]
      · have hkeepb : listHas R hd.rowId = false := by simpa using hkeep
        have hkeep2 : listHas (rid :: R) hd.rowId = false := by
          simp [listHas, hkeepb, Ne.symm hh]
        rw [List.filter_cons_of_pos (by simp [hkeepb]),
          List.filter_cons_of_pos (by simp [hkeep2]),
          removeRow_filter rid R tl hnodup.2]

/-- When no row carries the identity, the extra identity does not change the
filter. -/
lemma filter_skip_rid (rid : String) (R : List String) (rows : List Row)
    (h : ∀ r ∈ rows, r.rowId ≠ rid) :
    rows.filter (fun r => !listHas R r.rowId) =
      rows.filter (fun r => !listHas (rid :: R) r.rowId) := by
  refine List.filter_congr ?_
  intro r hr
  simp [listHas, Ne.symm (h r hr)]

/-- Characterization of the loop: the rows that no passing entry matches stay
in place (in their original relative order) and every passing entry
contributes, in enumeration order, one row at the end (its patched old row or
a freshly created one). Requires distinct identities on both sides. -/
lemma pe_char (bf uf : String) :
    ∀ (es : List (String × JsVal)) (rows : List Row) (n : ℕ)
      (vis : List String) (evs : List Event),
      (rows.map (fun r => r.rowId)).Nodup →
      (ridsOf bf uf es).Nodup →
      ∃ procd n' evs',
        processEntries bf uf es ⟨rows, n, vis, evs⟩ =
          ⟨rows.filter (fun r => !listHas (ridsOf bf uf es) r.rowId) ++ procd, n',
            vis ++ ridsOf bf uf es, evs ++ evs'⟩ ∧
        Fits bf uf es procd
  | [], rows, n, vis, evs, _, _ => by
    refine ⟨[], n, [], ?_, rfl⟩
    simp [processEntries_nil, ridsOf_nil, listHas]
  | kv :: es, rows, n, vis, evs, hnodup, hrids => by
    rw [processEntries_cons]
    by_cases hp : passes bf uf kv
    · rw [ridsOf_cons_pos hp] at hrids ⊢
      have hridnotin : getRowId kv.1 kv.2 ∉ ridsOf bf uf es := (List.nodup_cons.mp hrids).1
      have hrids' : (ridsOf bf uf es).Nodup := (List.nodup_cons.mp hrids).2
      cases hfind : findRow rows (getRowId kv.1 kv.2) with
      | some r0 =>
        rw [stepEntry_found _ r0 hp hfind]
        have hr0 : r0.rowId = getRowId kv.1 kv.2 := (findRow_some rows _ r0 hfind).2
        have hnodup2 : ((removeRow rows (getRowId kv.1 kv.2) ++
            [(patchRow r0 (formatDisplayValue kv.2) (formatEditorValue kv.2)).1]).map
              (fun r => r.rowId)).Nodup := by
          have hstep := @step_nodup bf uf kv ⟨rows, n, vis, evs⟩ hnodup
          rwa [stepEntry_found _ r0 hp hfind] at hstep
        obtain ⟨procd', n', evs2, heq, hfits⟩ :=
          pe_char bf uf es
            (removeRow rows (getRowId kv.1 kv.2) ++
              [(patchRow r0 (formatDisplayValue kv.2) (formatEditorValue kv.2)).1])
            n (vis ++ [getRowId kv.1 kv.2])
            (evs ++ (if (patchRow r0 (formatDisplayValue kv.2) (formatEditorValue kv.2)).2 then
              [Event.textUpdated (getRowId kv.1 kv.2)] else []) ++
              [Event.reAppended (getRowId kv.1 kv.2)]) hnodup2 hrids'
        refine ⟨(patchRow r0 (formatDisplayValue kv.2) (formatEditorValue kv.2)).1 :: procd', n',
          (if (patchRow r0 (formatDisplayValue kv.2) (formatEditorValue kv.2)).2 then
            [Event.textUpdated (getRowId kv.1 kv.2)] else []) ++
            [Event.reAppended (getRowId kv.1 kv.2)] ++ evs2, ?_, ?_⟩
        · rw [heq]
          simp only [LoadAcc.mk.injEq]
          refine ⟨?_, trivial, by simp, by simp⟩
          rw [List.filter_append]
          have hone : List.filter (fun r => !listHas (ridsOf bf uf es) r.rowId)
              [(patchRow r0 (formatDisplayValue kv.2) (formatEditorValue kv.2)).1] =
                [(patchRow r0 (formatDisplayValue kv.2) (formatEditorValue kv.2)).1] := by
            rw [List.filter_cons_of_pos
              (by simp [patchRow_rowId, hr0, listHas_eq_false hridnotin])]
            rfl
          rw [hone, removeRow_filter _ _ rows hnodup]
          simp
        · simp only [Fits, if_pos hp]
          exact ⟨(patchRow_rowId r0 _ _).trans hr0, patchRow_display r0 _ _, hfits⟩
      | none =>
        rw [stepEntry_new _ hp hfind]
        have hnone := findRow_none rows _ hfind
        have hnodup2 : ((rows ++ [createRow n kv.1 kv.2]).map (fun r => r.rowId)).Nodup := by
          have hstep := @step_nodup bf uf kv ⟨rows, n, vis, evs⟩ hnodup
          rwa [stepEntry_new _ hp hfind] at hstep
        obtain ⟨procd', n', evs2, heq, hfits⟩ :=
          pe_char bf uf es (rows ++ [createRow n kv.1 kv.2]) (n + 1)
            (vis ++ [getRowId kv.1 kv.2]) (evs ++ [Event.created (getRowId kv.1 kv.2)])
            hnodup2 hrids'
        refine ⟨createRow n kv.1 kv.2 :: procd', n',
          [Event.created (getRowId kv.1 kv.2)] ++ evs2, ?_, ?_⟩
        · rw [heq]
          simp only [LoadAcc.mk.injEq]
          refine ⟨?_, trivial, by simp, by simp⟩
          rw [List.filter_append]
          have hone : List.filter (fun r => !listHas (ridsOf bf uf es) r.rowId)
              [createRow n kv.1 kv.2] = [createRow n kv.1 kv.2] := by
            rw [List.filter_cons_of_pos
              (by simp [createRow_rowId, listHas_eq_false hridnotin])]
            rfl
          rw [hone, filter_skip_rid _ _ rows hnone]
          simp
        · simp only [Fits, if_pos hp]
          exact ⟨createRow_rowId n kv.1 kv.2, createRow_display n kv.1 kv.2, hfits⟩
    · rw [stepEntry_neg _ (by simpa using hp)]
      rw [ridsOf_cons_neg (by simpa using hp)] at hrids ⊢
      obtain ⟨procd, n', evs', heq, hfits⟩ := pe_char bf uf es rows n vis evs hnodup hrids
      exact ⟨procd, n', evs', heq, by simpa only [Fits, if_neg hp] using hfits⟩

/-- After a pass over a tbody with distinct row identities (and a store with
distinct passing identities), the rendered rows are exactly one row per
passing entry, in enumeration order, with fresh display caches. -/
lemma loadEntries_fits (all : List (String × JsVal)) (bf uf : String) (s : ViewerState)
    (hnodup : (s.rows.map (fun r => r.rowId)).Nodup)
    (hrids : (ridsOf bf uf all).Nodup) :
    Fits bf uf all (loadEntries all bf uf s).1.rows := by
  obtain ⟨procd, n', evs', heq, hfits⟩ :=
    pe_char bf uf all s.rows s.nextId [] [] hnodup hrids
  have hvis : (processEntries bf uf all ⟨s.rows, s.nextId, [], []⟩).visibleKeys =
      ridsOf bf uf all := by
    rw [heq]
    simp
  have hrows : (processEntries bf uf all ⟨s.rows, s.nextId, [], []⟩).rows =
      s.rows.filter (fun r => !listHas (ridsOf bf uf all) r.rowId) ++ procd := by
    rw [heq]
  show Fits bf uf all ((processEntries bf uf all ⟨s.rows, s.nextId, [], []⟩).rows.filter
    (fun r => listHas (processEntries bf uf all ⟨s.rows, s.nextId, [], []⟩).visibleKeys r.rowId))
  rw [hvis, hrows, List.filter_append]
  have h1 : (s.rows.filter (fun r => !listHas (ridsOf bf uf all) r.rowId)).filter
      (fun r => listHas (ridsOf bf uf all) r.rowId) = [] := by
    rw [List.filter_filter]
    exact List.filter_eq_nil_iff.mpr (fun r _ => by cases listHas (ridsOf bf uf all) r.rowId <;> simp)
  have h2 : procd.filter (fun r => listHas (ridsOf bf uf all) r.rowId) = procd := by
    refine List.filter_eq_self.mpr ?_
    intro r hr
    rw [listHas_iff, ← fits_rowIds bf uf all procd hfits]
    exact List.mem_map_of_mem (fun r => r.rowId) hr
  rw [h1, h2, List.nil_append]
  exact hfits

/-- Distinct keys produce distinct row identities. -/
lemma nodup_map_rid : ∀ (l : List (String × JsVal)),
    (l.map Prod.fst).Nodup → (l.map (fun kv => getRowId kv.1 kv.2)).Nodup
  | [], _ => by simp
  | kv :: t, h => by
    rw [List.map_cons, List.nodup_cons] at h ⊢
    refine ⟨?_, nodup_map_rid t h.2⟩
    intro hmem
    obtain ⟨kv', hkv', heq⟩ := List.mem_map.mp hmem
    exact h.1 ((getRowId_inj heq).1 ▸ List.mem_map_of_mem Prod.fst hkv')

/-- In an entry list with distinct keys, a key determines its value. -/
lemma nodup_key_val : ∀ (l : List (String × JsVal)) (k : String) (v1 v2 : JsVal),
    (l.map Prod.fst).Nodup → (k, v1) ∈ l → (k, v2) ∈ l → v1 = v2
  | [], _, _, _, _, h, _ => by simp at h
  | kv :: t, k, v1, v2, hnodup, h1, h2 => by
    rw [List.map_cons, List.nodup_cons] at hnodup
    rcases List.mem_cons.mp h1 with he1 | hm1
    · rcases List.mem_cons.mp h2 with he2 | hm2
      · rw [← he1] at he2
        exact ((Prod.ext_iff.mp he2).2).symm
      · rw [← he1] at hnodup
        exact absurd (show k ∈ List.map Prod.fst t from
          List.mem_map.mpr ⟨(k, v2), hm2, rfl⟩) hnodup.1
    · rcases List.mem_cons.mp h2 with he2 | hm2
      · rw [← he2] at hnodup
        exact absurd (show k ∈ List.map Prod.fst t from
          List.mem_map.mpr ⟨(k, v1), hm1, rfl⟩) hnodup.1
      · exact nodup_key_val t k v1 v2 hnodup.2 hm1 hm2

/-- Distinct keys give distinct visible row identities. -/
lemma ridsOf_nodup (bf uf : String) (all : List (String × JsVal))
    (hkeys : (all.map Prod.fst).Nodup) : (ridsOf bf uf all).Nodup := by
  refine nodup_map_rid _ ?_
  exact ((List.filter_sublist all).map Prod.fst).nodup hkeys

/-- A member of the fitting row list for each passing entry. -/
lemma fits_exists (bf uf : String) (es : List (String × JsVal)) (rows : List Row)
    (hfits : Fits bf uf es rows) (kv : String × JsVal)
    (hkv : kv ∈ es) (hp : passes bf uf kv = true) :
    ∃ r ∈ rows, r.rowId = getRowId kv.1 kv.2 := by
  have hmem : getRowId kv.1 kv.2 ∈ ridsOf bf uf es :=
    List.mem_map_of_mem _ (List.mem_filter.mpr ⟨hkv, hp⟩)
  rw [← fits_rowIds bf uf es rows hfits] at hmem
  obtain ⟨r, hr, hrid⟩ := List.mem_map.mp hmem
  exact ⟨r, hr, hrid⟩

/-!
The claims.
-/

/-- C1 (counterexample): with a single entry for key a whose value changed
externally from "x" to "y" while the row for key a sits in Editing mode with
user-typed text in its edit buffer, the reconciliation pass overwrites the
edit buffer with the fresh editor value "y" — refuting the claim that the
edit buffer is left unchanged when the externally changed value belongs to
the edited row's own key. -/
theorem c1_edit_buffer_clobbered :
    c1row.editing = true ∧ c1row.editorElValue = "typed" ∧
    (loadEntries [("a", JsVal.str "y")] "" "" c1state).1.rows.map
      (fun r => r.editorElValue) = ["y"] ∧
    (loadEntries [("a", JsVal.str "y")] "" "" c1state).1.rows.map
      (fun r => r.editing) = [true] := by
  refine ⟨rfl, rfl, ?_, ?_⟩ <;> decide

/-- C1 (amended): a reconciliation pass never removes or replaces a row in
Editing mode, and leaves its edit buffer (and every other part of the row)
unchanged, provided the row's own entry is still present, still passes the
filters, and still has the row's cached display text — in particular when
the externally changed values belong to different keys. (When the edited
row's own displayed value changes, the pass overwrites the edit buffer, as
the counterexample shows.) -/
theorem c1_edit_isolation_amended (all : List (String × JsVal)) (bf uf : String)
    (s : ViewerState) (r : Row)
    (hr : r ∈ s.rows) (_hediting : r.editing = true)
    (hagree : ∀ kv ∈ all, passes bf uf kv = true → getRowId kv.1 kv.2 = r.rowId →
      formatDisplayValue kv.2 = r.dataDisplay)
    (hpresent : ∃ kv ∈ all, passes bf uf kv = true ∧ getRowId kv.1 kv.2 = r.rowId) :
    r ∈ (loadEntries all bf uf s).1.rows := by
  have hmem : r ∈ (processEntries bf uf all ⟨s.rows, s.nextId, [], []⟩).rows :=
    pe_mem bf uf all ⟨s.rows, s.nextId, [], []⟩ r hr hagree
  have hvis : (processEntries bf uf all ⟨s.rows, s.nextId, [], []⟩).visibleKeys =
      ridsOf bf uf all := by
    rw [pe_vis bf uf all _]
    simp
  show r ∈ (processEntries bf uf all ⟨s.rows, s.nextId, [], []⟩).rows.filter
    (fun row => listHas (processEntries bf uf all ⟨s.rows, s.nextId, [], []⟩).visibleKeys row.rowId)
  rw [hvis]
  refine List.mem_filter.mpr ⟨hmem, ?_⟩
  obtain ⟨kv, hkv, hp, hrid⟩ := hpresent
  rw [listHas_iff, ← hrid]
  exact List.mem_map_of_mem _ (List.mem_filter.mpr ⟨hkv, hp⟩)

/-- C1 (witness): the amended isolation theorem applied to a concrete state:
the row for key a is editing, key b changed externally, and the row survives
the pass entirely unchanged. -/
theorem c1_edit_isolation_amended_witness :
    c1row ∈ (loadEntries [("a", JsVal.str "x"), ("b", JsVal.str "z")] "" "" c1state).1.rows :=
  c1_edit_isolation_amended [("a", JsVal.str "x"), ("b", JsVal.str "z")] "" "" c1state c1row
    (by decide) rfl (by decide)
    ⟨("a", JsVal.str "x"), by decide, by decide, by decide⟩

/-- When every visible identity is selector-safe, the checked pass agrees
with the unchecked one and no exception is thrown. -/
lemma stepEntryChecked_eq {bf uf : String} {kv : String × JsVal} (acc : LoadAcc)
    (h : passes bf uf kv = true → selectorSafe (getRowId kv.1 kv.2) = true) :
    stepEntryChecked bf uf acc kv = (stepEntry bf uf acc kv, none) := by
  by_cases hp : passes bf uf kv
  · simp [stepEntryChecked, hp, h hp]
  · have hp' : passes bf uf kv = false := by simpa using hp
    simp [stepEntryChecked, stepEntry, hp']

lemma pe_checked_eq (bf uf : String) :
    ∀ (es : List (String × JsVal)) (acc : LoadAcc),
      (∀ kv ∈ es, passes bf uf kv = true → selectorSafe (getRowId kv.1 kv.2) = true) →
      processEntriesChecked bf uf es acc = (processEntries bf uf es acc, none)
  | [], _, _ => rfl
  | kv :: es, acc, h => by
    rw [show processEntriesChecked bf uf (kv :: es) acc =
        (match stepEntryChecked bf uf acc kv with
         | (acc2, none) => processEntriesChecked bf uf es acc2
         | (acc2, some e) => (acc2, some e)) from rfl,
      stepEntryChecked_eq acc (h kv (List.mem_cons_self kv es)), processEntries_cons]
    exact pe_checked_eq bf uf es _ (fun kv' h1 h2 => h kv' (List.mem_cons_of_mem kv h1) h2)

lemma loadEntriesChecked_eq (all : List (String × JsVal)) (bf uf : String) (s : ViewerState)
    (h : ∀ kv ∈ all, passes bf uf kv = true → selectorSafe (getRowId kv.1 kv.2) = true) :
    loadEntriesChecked all bf uf s =
      ((loadEntries all bf uf s).1, (loadEntries all bf uf s).2, none) := by
  unfold loadEntriesChecked
  rw [pe_checked_eq bf uf all _ h]
  rfl

/-- Visibility characterization of the unchecked pass. -/
lemma loadEntries_filter_iff (all : List (String × JsVal)) (bf uf : String)
    (s : ViewerState) (k : String) (v : JsVal)
    (hkeys : (all.map Prod.fst).Nodup)
    (hnodup : (s.rows.map (fun r => r.rowId)).Nodup)
    (hmem : (k, v) ∈ all) :
    (∃ r ∈ (loadEntries all bf uf s).1.rows, r.rowId = getRowId k v) ↔
      (bf.data <:+: k.data ∧ uf.data <:+: k.data) := by
  have hfits := loadEntries_fits all bf uf s hnodup (ridsOf_nodup bf uf all hkeys)
  constructor
  · rintro ⟨r, hr, hrid⟩
    have hin : getRowId k v ∈ ridsOf bf uf all := by
      rw [← hrid, ← fits_rowIds bf uf all _ hfits]
      exact List.mem_map_of_mem _ hr
    obtain ⟨kv', hkv', heq⟩ := List.mem_map.mp hin
    obtain ⟨hkv'mem, hp⟩ := List.mem_filter.mp hkv'
    obtain ⟨hkeq, _⟩ := getRowId_inj heq
    have hpass : passes bf uf (k, v) = true := by
      have : kv' = (kv'.1, kv'.2) := rfl
      rw [passes] at hp ⊢
      simpa [hkeq] using hp
    rw [passes, Bool.and_eq_true, jsIncludes_iff, jsIncludes_iff] at hpass
    exact hpass
  · intro ⟨h1, h2⟩
    have hpass : passes bf uf (k, v) = true := by
      rw [passes, Bool.and_eq_true, jsIncludes_iff, jsIncludes_iff]
      exact ⟨h1, h2⟩
    exact fits_exists bf uf all _ hfits (k, v) hmem hpass

/-- C2 (counterexample): with a store holding a key that contains a double
quote followed by the key good, and empty filters, the key good passes both
substring filters yet no row for it is ever rendered: the unescaped selector
built for the quote-containing identity makes querySelector throw, aborting
the pass before the second entry is processed — refuting the universal
visible-iff-substring claim over every store content. -/
theorem c2_selector_injection :
    passes "" "" ("good", JsVal.str "w") = true ∧
    (loadEntriesChecked [("a\"b", JsVal.str "v"), ("good", JsVal.str "w")] "" ""
      emptyState).1.rows = [] ∧
    (loadEntriesChecked [("a\"b", JsVal.str "v"), ("good", JsVal.str "w")] "" ""
      emptyState).2.2 =
      some "SyntaxError: unescaped row id breaks the attribute selector" := by
  refine ⟨?_, ?_, ?_⟩ <;> decide

/-- C2 (amended): for a store with distinct keys whose visible row
identities are all selector-safe (no double quote, backslash or newline in
the key, which is what keeps the interpolated querySelector string valid),
and a view with distinct row identities, the pass completes without an
exception and an entry is rendered as a visible row exactly when its key
contains the base filter and the user filter as case-sensitive substrings. -/
theorem c2_filter_correctness_amended (all : List (String × JsVal)) (bf uf : String)
    (s : ViewerState) (k : String) (v : JsVal)
    (hkeys : (all.map Prod.fst).Nodup)
    (hnodup : (s.rows.map (fun r => r.rowId)).Nodup)
    (hmem : (k, v) ∈ all)
    (hsafe : ∀ kv ∈ all, passes bf uf kv = true →
      selectorSafe (getRowId kv.1 kv.2) = true) :
    (loadEntriesChecked all bf uf s).2.2 = none ∧
    ((∃ r ∈ (loadEntriesChecked all bf uf s).1.rows, r.rowId = getRowId k v) ↔
      (bf.data <:+: k.data ∧ uf.data <:+: k.data)) := by
  rw [loadEntriesChecked_eq all bf uf s hsafe]
  exact ⟨rfl, loadEntries_filter_iff all bf uf s k v hkeys hnodup hmem⟩

/-- C2 (witness): the filter iff evaluated through the checked pass for the
store holding only key ab with base filter a and user filter b. -/
theorem c2_filter_correctness_amended_witness :
    (loadEntriesChecked [("ab", JsVal.str "v")] "a" "b" emptyState).2.2 = none ∧
    ((∃ r ∈ (loadEntriesChecked [("ab", JsVal.str "v")] "a" "b" emptyState).1.rows,
      r.rowId = getRowId "ab" (JsVal.str "v")) ↔
      ("a".data <:+: "ab".data ∧ "b".data <:+: "ab".data)) :=
  c2_filter_correctness_amended [("ab", JsVal.str "v")] "a" "b" emptyState "ab"
    (JsVal.str "v") (by decide) (by decide) (by decide) (by decide)

/-- C4 (counterexample): when the bulk read fails, the pass leaves the state
exactly as it was and the rejection only propagates outward — in particular
no row shows any error text, so no visible notice of the failure appears
anywhere in the view, refuting the claim that a visible non-blocking notice
is shown. -/
theorem c4_read_failure_no_notice :
    loadEntriesTry (Except.error "boom") "" "" c1state = (c1state, [], some "boom") ∧
    (∀ r ∈ c1state.rows, r.errorText = "") := by
  refine ⟨rfl, ?_⟩
  decide

/-- C4 (amended): if the bulk read fails during a reconciliation pass, the
pass aborts before any DOM mutation — the rendered rows stay exactly the
last successfully reconciled state — but no user-visible notice is shown:
the rejection propagates to the caller, and no caller installs a handler. -/
theorem c4_read_failure_amended (e : String) (bf uf : String) (s : ViewerState) :
    loadEntriesTry (Except.error e) bf uf s = (s, [], some e) := rfl

/-- C5: for a boolean-typed row displaying b, a toggle whose storage write
rejects leaves the displayed text and the cached display value at the
pre-toggle value and shows an error indicator whose text contains the
failure's description; a toggle whose write resolves flips the displayed and
cached value to the negation of b. The write request for the negation is
issued in both cases. -/
theorem c5_toggle_rollback (r : Row) (b : Bool) (e : String)
    (hb : r.dataDisplay = (if b then "true" else "false")) :
    ((toggleClick r (Except.error e)).1.dataDisplay = r.dataDisplay ∧
     (toggleClick r (Except.error e)).1.displayAreaText = r.displayAreaText ∧
     (toggleClick r (Except.error e)).1.errorVisible = true ∧
     e.data <:+: (toggleClick r (Except.error e)).1.errorText.data) ∧
    ((toggleClick r (Except.ok ())).1.dataDisplay = (if !b then "true" else "false") ∧
     (toggleClick r (Except.ok ())).1.displayAreaText = (if !b then "true" else "false") ∧
     (toggleClick r (Except.ok ())).2 = some (r.key, JsVal.bool !b)) := by
  have hinf : e.data <:+: ("Toggle failed: " ++ e).data :=
    ⟨"Toggle failed: ".data, [], by simp [String.data_append]⟩
  cases b
  · simp only [Bool.false_eq_true, if_false] at hb
    constructor
    · refine ⟨rfl, rfl, rfl, ?_⟩
      simpa [toggleClick] using hinf
    · simp [toggleClick, setValueOk, hb, formatDisplayValue, formatEditorValue, getType,
        jsToString]
  · simp only [if_true] at hb
    constructor
    · refine ⟨rfl, rfl, rfl, ?_⟩
      simpa [toggleClick] using hinf
    · simp [toggleClick, setValueOk, hb, formatDisplayValue, formatEditorValue, getType,
        jsToString]

/-- C5 (witness): the toggle contract evaluated on a concrete boolean row
displaying true, with failure description quota. -/
theorem c5_toggle_rollback_witness :
    ((toggleClick c5row (Except.error "quota")).1.dataDisplay = c5row.dataDisplay ∧
     (toggleClick c5row (Except.error "quota")).1.displayAreaText = c5row.displayAreaText ∧
     (toggleClick c5row (Except.error "quota")).1.errorVisible = true ∧
     "quota".data <:+: (toggleClick c5row (Except.error "quota")).1.errorText.data) ∧
    ((toggleClick c5row (Except.ok ())).1.dataDisplay = (if !true then "true" else "false") ∧
     (toggleClick c5row (Except.ok ())).1.displayAreaText = (if !true then "true" else "false") ∧
     (toggleClick c5row (Except.ok ())).2 = some (c5row.key, JsVal.bool !true)) :=
  c5_toggle_rollback c5row true "quota" rfl

/-- C6: committing a number-typed row whose edit text does not convert to a
finite number issues no storage write, leaves the row in Editing mode (the
editor sub-area still shown), and shows the inline conversion error,
regardless of how a write would have resolved; since no write is issued the
stored value is unchanged. -/
theorem c6_numeric_reject (r : Row) (res : Except String Unit)
    (htype : r.rowType = "number")
    (hfin : isFiniteNum (jsToNumber r.editorElValue) = false)
    (hediting : r.editing = true) :
    (saveEdit r res).2 = none ∧
    (saveEdit r res).1.editing = true ∧
    (saveEdit r res).1.editShown = r.editShown ∧
    (saveEdit r res).1.errorVisible = true ∧
    (saveEdit r res).1.errorText = "Save failed: Error: Value is not a number" := by
  have hparse : parseNewVal r = Except.error "Error: Value is not a number" := by
    rw [parseNewVal, htype]
    rw [if_neg (by decide), if_pos rfl]
    cases hn : jsToNumber r.editorElValue with
    | finite q => rw [hn] at hfin; simp [isFiniteNum] at hfin
    | nan => rfl
    | inf neg => rfl
  rw [saveEdit, hparse]
  exact ⟨rfl, hediting, rfl, rfl, rfl⟩

/-- C6 (witness): the rejection evaluated on a concrete number row holding
edit text abc (which converts to NaN). -/
theorem c6_numeric_reject_witness :
    (saveEdit c6row (Except.ok ())).2 = none ∧
    (saveEdit c6row (Except.ok ())).1.editing = true ∧
    (saveEdit c6row (Except.ok ())).1.editShown = c6row.editShown ∧
    (saveEdit c6row (Except.ok ())).1.errorVisible = true ∧
    (saveEdit c6row (Except.ok ())).1.errorText =
      "Save failed: Error: Value is not a number" :=
  c6_numeric_reject c6row (Except.ok ()) rfl (by decide) rfl

/-- C7 (counterexample): committing the edit text consisting of a quoted
string on an object-typed row stores the plain string a, whose display text
is a, while the compact encoding of that stored value is the quoted form —
so display does not round-trip to the compact encoding of the parsed value
for every committed object edit. -/
theorem c7_roundtrip_counterexample :
    (saveEdit c7row (Except.ok ())).2 = some ("k", JsVal.str "a") ∧
    (saveEdit c7row (Except.ok ())).1.dataDisplay = "a" ∧
    (saveEdit c7row (Except.ok ())).1.displayAreaText = "a" ∧
    jsonStringify (JsVal.str "a") = "\"a\"" ∧
    ("a" : String) ≠ "\"a\"" := by
  refine ⟨rfl, ?_, ?_, ?_, ?_⟩ <;> decide

/-- C7 (amended): committing an object edit whose text parses to a value
that is itself object-typed stores that parsed value and renders it as its
compact encoding (and the row leaves Editing mode); in particular the
instance with edit text for the object mapping x to 1 holds. A scalar parse
result such as a JSON string is instead displayed through its String()
form, which differs from its compact encoding (see the counterexample). -/
theorem c7_roundtrip_amended (r : Row) (v : JsVal)
    (htype : r.rowType = "object")
    (hparse : jsonParse r.editorElValue = Except.ok v)
    (hobj : getType v = "object") :
    (saveEdit r (Except.ok ())).2 = some (r.key, v) ∧
    (saveEdit r (Except.ok ())).1.dataDisplay = jsonStringify v ∧
    (saveEdit r (Except.ok ())).1.displayAreaText = jsonStringify v ∧
    (saveEdit r (Except.ok ())).1.editing = false := by
  have hpn : parseNewVal r = Except.ok v := by
    rw [parseNewVal, if_pos htype]
    exact hparse
  rw [saveEdit, hpn]
  refine ⟨rfl, ?_, ?_, rfl⟩ <;>
    simp [cancelEdit, setValueOk, formatDisplayValue, hobj]

/-- C7 (witness): the amended round trip evaluated on the concrete edit text
for the object mapping x to 1: the stored value is that object and the
display text is its compact encoding. -/
theorem c7_roundtrip_amended_witness :
    (saveEdit c7brow (Except.ok ())).2 =
      some ("k", JsVal.obj (JsProps.cons "x" (JsVal.num (JsNum.finite 1)) JsProps.nil)) ∧
    (saveEdit c7brow (Except.ok ())).1.dataDisplay =
      jsonStringify (JsVal.obj (JsProps.cons "x" (JsVal.num (JsNum.finite 1)) JsProps.nil)) ∧
    (saveEdit c7brow (Except.ok ())).1.displayAreaText =
      jsonStringify (JsVal.obj (JsProps.cons "x" (JsVal.num (JsNum.finite 1)) JsProps.nil)) ∧
    (saveEdit c7brow (Except.ok ())).1.editing = false :=
  c7_roundtrip_amended c7brow
    (JsVal.obj (JsProps.cons "x" (JsVal.num (JsNum.finite 1)) JsProps.nil))
    rfl (by rfl) rfl

/-! Lemmas for the HTML escaping claim. -/

lemma mapConcat_append (f : Char → List Char) :
    ∀ (a b : List Char), mapConcat f (a ++ b) = mapConcat f a ++ mapConcat f b
  | [], _ => rfl
  | c :: t, b => by
    show f c ++ mapConcat f (t ++ b) = (f c ++ mapConcat f t) ++ mapConcat f b
    rw [mapConcat_append f t b, List.append_assoc]

lemma mem_mapConcat (f : Char → List Char) :
    ∀ (l : List Char) (c' : Char), c' ∈ mapConcat f l → ∃ c ∈ l, c' ∈ f c
  | [], _, h => by simp [mapConcat] at h
  | c :: t, c', h => by
    rcases List.mem_append.mp (by simpa [mapConcat] using h) with h1 | h2
    · exact ⟨c, List.mem_cons_self c t, h1⟩
    · obtain ⟨c0, hc0, hc0'⟩ := mem_mapConcat f t c' h2
      exact ⟨c0, List.mem_cons_of_mem c hc0, hc0'⟩

lemma mapConcat_congr (f g : Char → List Char) :
    ∀ (l : List Char), (∀ c ∈ l, f c = g c) → mapConcat f l = mapConcat g l
  | [], _ => rfl
  | c :: t, h => by
    simp only [mapConcat, h c (List.mem_cons_self c t)]
    rw [mapConcat_congr f g t (fun c' hc' => h c' (List.mem_cons_of_mem c hc'))]

/-- The per-character effect of the five sequential replacements. -/
def escChainFn (c : Char) : List Char :=
  mapConcat (fun x => if x = '\'' then "&#39;".data else [x])
    (mapConcat (fun x => if x = '"' then "&quot;".data else [x])
      (mapConcat (fun x => if x = '>' then "&gt;".data else [x])
        (mapConcat (fun x => if x = '<' then "&lt;".data else [x])
          (if c = '&' then "&amp;".data else [c]))))

lemma escape_chain :
    ∀ cs : List Char,
      mapConcat (fun x => if x = '\'' then "&#39;".data else [x])
        (mapConcat (fun x => if x = '"' then "&quot;".data else [x])
          (mapConcat (fun x => if x = '>' then "&gt;".data else [x])
            (mapConcat (fun x => if x = '<' then "&lt;".data else [x])
              (mapConcat (fun x => if x = '&' then "&amp;".data else [x]) cs)))) =
        mapConcat escChainFn cs
  | [] => rfl
  | c :: t => by
    simp only [mapConcat, mapConcat_append, escChainFn]
    rw [escape_chain t]

lemma escChainFn_eq_spec (c : Char) : escChainFn c = escCharSpec c := by
  by_cases h1 : c = '&'
  · subst h1; decide
  · by_cases h2 : c = '<'
    · subst h2; decide
    · by_cases h3 : c = '>'
      · subst h3; decide
      · by_cases h4 : c = '"'
        · subst h4; decide
        · by_cases h5 : c = '\''
          · subst h5; decide
          · simp [escChainFn, escCharSpec, mapConcat, h1, h2, h3, h4, h5]

lemma escapeHtml_eq_spec (s : String) :
    escapeHtml s = String.mk (mapConcat escCharSpec s.data) := by
  show String.mk
      (mapConcat (fun x => if x = '\'' then "&#39;".data else [x])
        (mapConcat (fun x => if x = '"' then "&quot;".data else [x])
          (mapConcat (fun x => if x = '>' then "&gt;".data else [x])
            (mapConcat (fun x => if x = '<' then "&lt;".data else [x])
              (mapConcat (fun x => if x = '&' then "&amp;".data else [x]) s.data))))) = _
  rw [escape_chain s.data]
  exact congrArg String.mk
    (mapConcat_congr escChainFn escCharSpec s.data (fun c _ => escChainFn_eq_spec c))

lemma escCharSpec_safe (c : Char) :
    ∀ c' ∈ escCharSpec c, c' ≠ '<' ∧ c' ≠ '>' ∧ c' ≠ '"' ∧ c' ≠ '\'' := by
  unfold escCharSpec
  by_cases h1 : c = '&'
  · simp only [if_pos h1]; decide
  · rw [if_neg h1]
    by_cases h2 : c = '<'
    · simp only [if_pos h2]; decide
    · rw [if_neg h2]
      by_cases h3 : c = '>'
      · simp only [if_pos h3]; decide
      · rw [if_neg h3]
        by_cases h4 : c = '"'
        · simp only [if_pos h4]; decide
        · rw [if_neg h4]
          by_cases h5 : c = '\''
          · simp only [if_pos h5]; decide
          · rw [if_neg h5]
            intro c' hc'
            rw [List.mem_singleton.mp hc']
            exact ⟨h2, h3, h4, h5⟩

/-- C9: escapeHtml replaces every occurrence of the five special characters
by its HTML entity and leaves every other character alone (it equals the
single-pass per-character escaping map, thanks to ampersand being replaced
first); consequently its output — and in particular the safeFooter
interpolated into the generated page for any footerText option — contains no
raw angle bracket or quote character, so footer text cannot introduce markup
or script. -/
theorem c9_escape_html (s : String) (ft : Option String) :
    escapeHtml s = String.mk (mapConcat escCharSpec s.data) ∧
    (∀ c ∈ (escapeHtml s).data, c ≠ '<' ∧ c ≠ '>' ∧ c ≠ '"' ∧ c ≠ '\'') ∧
    (∀ c ∈ (safeFooterOf ft).data, c ≠ '<' ∧ c ≠ '>' ∧ c ≠ '"' ∧ c ≠ '\'') := by
  have hsafe : ∀ t : String, ∀ c ∈ (escapeHtml t).data,
      c ≠ '<' ∧ c ≠ '>' ∧ c ≠ '"' ∧ c ≠ '\'' := by
    intro t c hc
    rw [escapeHtml_eq_spec t] at hc
    obtain ⟨c0, _, hc0⟩ := mem_mapConcat escCharSpec t.data c hc
    exact escCharSpec_safe c0 c hc0
  exact ⟨escapeHtml_eq_spec s, hsafe s, hsafe _⟩

/-! Lemmas for the whitespace-only numeric commit claim. -/

lemma trimWhite_of_all_white {cs : List Char} (h : ∀ c ∈ cs, jsWhite c = true) :
    trimWhite cs = [] := by
  have hdrop : cs.dropWhile jsWhite = [] := by
    induction cs with
    | nil => rfl
    | cons c t ih =>
      rw [List.dropWhile_cons, if_pos (h c (List.mem_cons_self c t))]
      exact ih (fun c' hc' => h c' (List.mem_cons_of_mem c hc'))
  rw [trimWhite, hdrop]
  rfl

lemma jsToNumber_all_white {s : String} (h : ∀ c ∈ s.data, jsWhite c = true) :
    jsToNumber s = JsNum.finite 0 := by
  rw [jsToNumber]
  simp only [trimWhite_of_all_white h]
  rfl

/-- C10: committing a number-typed row whose edit text is empty or contains
only whitespace is not rejected: the text converts to the finite number 0,
the write of 0 is issued, and when it resolves the row leaves Editing mode
and displays 0. -/
theorem c10_empty_number_commit (r : Row)
    (htype : r.rowType = "number")
    (hws : ∀ c ∈ r.editorElValue.data, jsWhite c = true) :
    jsToNumber r.editorElValue = JsNum.finite 0 ∧
    (saveEdit r (Except.ok ())).2 = some (r.key, JsVal.num (JsNum.finite 0)) ∧
    (saveEdit r (Except.ok ())).1.editing = false ∧
    (saveEdit r (Except.ok ())).1.dataDisplay = "0" ∧
    (saveEdit r (Except.ok ())).1.displayAreaText = "0" := by
  have hnum := jsToNumber_all_white hws
  have hpn : parseNewVal r = Except.ok (JsVal.num (JsNum.finite 0)) := by
    rw [parseNewVal, htype]
    rw [if_neg (by decide), if_pos rfl, hnum]
  have hdisp : formatDisplayValue (JsVal.num (JsNum.finite 0)) = "0" := by decide
  rw [saveEdit, hpn]
  refine ⟨hnum, rfl, rfl, ?_, ?_⟩ <;>
    simp [cancelEdit, setValueOk, hdisp]

/-- C10 (witness): the whitespace commit evaluated on a concrete number row
whose edit buffer holds a single space. -/
theorem c10_empty_number_commit_witness :
    jsToNumber c10row.editorElValue = JsNum.finite 0 ∧
    (saveEdit c10row (Except.ok ())).2 = some (c10row.key, JsVal.num (JsNum.finite 0)) ∧
    (saveEdit c10row (Except.ok ())).1.editing = false ∧
    (saveEdit c10row (Except.ok ())).1.dataDisplay = "0" ∧
    (saveEdit c10row (Except.ok ())).1.displayAreaText = "0" :=
  c10_empty_number_commit c10row rfl (by decide)

end StorageEditor
